import Mathlib

set_option maxRecDepth 40000

/-!
Verification of the luminance-histogram reduction and quantization routine
in `src/avg.py` (embryo-engine).

The program has two numeric parts:

* the histogram reduction (lines 14, 25-42): sum the bins to a pixel count,
  build the weighted array `weighted[i] = i * histogram[i]`, fold it with a
  logarithmic-depth reduction, normalize the resulting weighted sum into a
  log-luminance average `wla`, and decode it to a linear luminance `wal`;
* the quantizer `colorToBin` (lines 47-55): map a linear RGB triple to a
  histogram bin through a log2 luminance mapping.

Machine floats are modelled as real numbers, Python integers as `ℕ`/`ℤ`,
Python lists as `List ℕ`, and runtime errors (IndexError, ValueError,
the designed EmptyHistogramError) as `Option`/`Except` results.

Two embeddings of the reduction loop are given:

* `reduceWeightedChecked` is the loop exactly as written, where an index
  beyond the end of the weighted array is an error (Python IndexError);
* `reduceWeighted` is the loop with the spec's clamped read semantics
  (spec section 4.2 step 3: a partner index `j + cutoff >= B` contributes
  zero), which is the behaviour the spec prescribes for an implementer.
-/

/-- Histogram bin count of the reference program: the printing loop and the
sample data use 255 bins (src/avg.py line 18). -/
def B : ℕ := 255

/-- Source line 14: `pixels = sum(histogram)`. -/
def pixels (h : List ℕ) : ℕ := h.sum

/-- Source line 25: `histogramShared = [x * i for i, x in enumerate(histogram)]`. -/
def weightedInit (h : List ℕ) : List ℕ := h.mapIdx (fun i x => x * i)

/-- Source line 28: `cutoff = int(math.ceil(len(histogram) / 2**i))`,
the ceiling division written on naturals. -/
def cutoff (len i : ℕ) : ℕ := (len + 2 ^ i - 1) / 2 ^ i

/-- Source line 27: the outer loop runs `i = 1 .. int(math.ceil(math.log2(len)))`,
so the number of levels is the ceiling base-2 logarithm of the length. -/
def numLevels (len : ℕ) : ℕ := Nat.clog 2 len

/-- Source line 30, one iteration of the inner loop with the spec's clamped
read (spec 4.2 step 3): `weighted[j] += weighted[j + cutoff]`, where a read
past the end of the list contributes zero (`List.getD _ _ 0`) and a write
past the end is dropped (`List.set` is the identity there; the loop never
actually writes past the end since `j < cutoff <= len`). -/
def foldStep (c j : ℕ) (w : List ℕ) : List ℕ :=
  w.set j (w.getD j 0 + w.getD (j + c) 0)

/-- The inner loop of source lines 29-30 run for `j = 0 .. m-1` with the
clamped read semantics. -/
def foldLevelAux (c : ℕ) (w : List ℕ) (m : ℕ) : List ℕ :=
  (List.range m).foldl (fun acc j => foldStep c j acc) w

/-- Source lines 29-30: one full level of the reduction,
`for j in range(0, cutoff): weighted[j] += weighted[j + cutoff]`,
with the spec's clamped read semantics. -/
def foldLevel (c : ℕ) (w : List ℕ) : List ℕ := foldLevelAux c w c

/-- Source lines 25-30: the logarithmic-depth weighted reduction with the
spec's clamped read semantics (spec 4.2 step 3). -/
def reduceWeighted (h : List ℕ) : List ℕ :=
  (List.range (numLevels h.length)).foldl
    (fun w k => foldLevel (cutoff h.length (k + 1)) w) (weightedInit h)

/-- Source line 33: after the reduction, `histogramShared[0]` holds the
weighted sum. -/
def weightedSum (h : List ℕ) : ℕ := (reduceWeighted h).getD 0 0

/-- Spec 4.2 step 3 / section 8: the single-pass linear weighted sum,
`sum over i of i * histogram[i]`. -/
def linearWeightedSum (h : List ℕ) : ℕ :=
  ∑ i ∈ Finset.range h.length, i * h.getD i 0

/-- Sum of the first `n` clamped reads of a list; proof-side abbreviation
used to track the live prefix of the weighted array between levels. -/
def prefixSum (w : List ℕ) (n : ℕ) : ℕ := ∑ k ∈ Finset.range n, w.getD k 0

/-- Source line 30 exactly as written, without any clamping: both reads
index the list and fail (Python IndexError) when out of bounds. -/
def foldStepChecked (c j : ℕ) (w : List ℕ) : Option (List ℕ) :=
  match w[j]?, w[j + c]? with
  | some a, some b => some (w.set j (a + b))
  | _, _ => none

/-- The inner loop of source lines 29-30 run for `j = 0 .. m-1`, with
bounds-checked indexing, in the `Option` (first-error) monad. -/
def foldLevelCheckedAux (c : ℕ) (w : List ℕ) (m : ℕ) : Option (List ℕ) :=
  (List.range m).foldlM (fun acc j => foldStepChecked c j acc) w

/-- Source lines 29-30 exactly as written: one full level of the reduction
with bounds-checked indexing. -/
def foldLevelChecked (c : ℕ) (w : List ℕ) : Option (List ℕ) :=
  foldLevelCheckedAux c w c

/-- Source lines 25-30 exactly as written: the reduction loop with
bounds-checked indexing; `none` models the run aborting with IndexError. -/
def reduceWeightedChecked (h : List ℕ) : Option (List ℕ) :=
  (List.range (numLevels h.length)).foldlM
    (fun w k => foldLevelChecked (cutoff h.length (k + 1)) w) (weightedInit h)

/-- Source line 38: `minLogLum = -8.0`. -/
noncomputable def minLogLum : ℝ := -8.0

/-- Source line 39: `maxLogLum = 3.5`. -/
noncomputable def maxLogLum : ℝ := 3.5

/-- Source line 40: `inverseLogLumRange = 1.0 / (maxLogLum - minLogLum)`. -/
noncomputable def inverseLogLumRange : ℝ := 1.0 / (maxLogLum - minLogLum)

/-- Source line 41: `llr = maxLogLum - minLogLum`. -/
noncomputable def llr : ℝ := maxLogLum - minLogLum

/-- Source line 35: `wla = histogramShared[0] / max(1920 * 1080, 1.0) - 1.0`
(the normalized log luminance of the weighted sum `ws`). -/
noncomputable def wla (ws : ℕ) : ℝ := (ws : ℝ) / max (1920 * 1080 : ℝ) 1.0 - 1.0

/-- Source line 42: `wal = 2 ** (((wla / 254.0) * llr) + minLogLum)`
(the average linear luminance decoded from the normalized log average). -/
noncomputable def wal (x : ℝ) : ℝ := (2 : ℝ) ^ (((x / 254.0) * llr) + minLogLum)

/-- Source line 48: `lum = r * 0.21 + g * 0.71 + b * -0.07`. -/
noncomputable def lum (r g b : ℝ) : ℝ := r * 0.21 + g * 0.71 + b * -0.07

/-- Source line 53: the clamped log-luminance
`min(max((math.log2(lum) - minLogLum) * inverseLogLumRange, 0.0), 1.0)`. -/
noncomputable def logLumOf (r g b : ℝ) : ℝ :=
  min (max ((Real.logb 2 (lum r g b) - minLogLum) * inverseLogLumRange) 0.0) 1.0

/-- Python's `int()` on a float: truncation toward zero. -/
noncomputable def pyInt (x : ℝ) : ℤ := if 0 ≤ x then ⌊x⌋ else ⌈x⌉

/-- Source lines 47-55, return value only: the quantizer `colorToBin`,
with the diagnostic `print` on line 49 dropped (spec section 9 treats the
prints as external formatting). -/
noncomputable def colorToBin (r g b : ℝ) : ℤ :=
  if lum r g b < 0.005 then 0 else pyInt (logLumOf r g b * 254.0 + 1.0)

/-- Source lines 47-55 exactly as written: before the black-threshold guard,
line 49 evaluates `math.log2(lum)` inside a `print`, which raises ValueError
(math domain error) whenever `lum <= 0`; `none` models that failure. -/
noncomputable def colorToBinSrc (r g b : ℝ) : Option ℤ :=
  if lum r g b ≤ 0 then none else some (colorToBin r g b)

/-- Error taxonomy of spec section 7 (the two errors `reduce` can raise). -/
inductive ReduceError where
  | malformedHistogram : ReduceError
  | emptyHistogramError : ReduceError
deriving DecidableEq

/-- Output record of the reduction, spec section 3 (`LuminanceStatistic`). -/
structure LuminanceStatistic where
  pixelCount : ℕ
  weightedSum : ℕ
  normalizedLogLuminance : ℝ
  averageLinearLuminance : ℝ

/-- Modelled from the spec: src/avg.py is a flat script with no typed-error
`reduce` entry point (a zero-sum histogram simply hits a ZeroDivisionError
at the `histogram[i] / pixels` ratio on line 19), so the `reduce` contract of
spec sections 4.2 and 7 is modelled here from the spec's words: reject a
wrong-length histogram as `malformedHistogram`, then sum the bins and fail
with `emptyHistogramError` when the sum is zero, before any division;
otherwise return the `LuminanceStatistic` computed by source lines 25-42. -/
noncomputable def reduceE (h : List ℕ) : Except ReduceError LuminanceStatistic :=
  if h.length ≠ B then .error .malformedHistogram
  else if h.sum = 0 then .error .emptyHistogramError
  else .ok { pixelCount := pixels h
             weightedSum := weightedSum h
             normalizedLogLuminance := wla (weightedSum h)
             averageLinearLuminance := wal (wla (weightedSum h)) }

/-- State of the in-place reduction: the caller's histogram together with
the private weighted array the folds write to. -/
structure ReduceState where
  histogram : List ℕ
  shared : List ℕ

/-- One inner-loop iteration of source line 30 acting on the full state:
it rewrites only the `shared` array, at index `j`. -/
def stepState (c j : ℕ) (s : ReduceState) : ReduceState :=
  { histogram := s.histogram
    shared := s.shared.set j (s.shared.getD j 0 + s.shared.getD (j + c) 0) }

/-- One level of source lines 29-30 acting on the full state. -/
def levelState (c : ℕ) (s : ReduceState) : ReduceState :=
  (List.range c).foldl (fun t j => stepState c j t) s

/-- Source lines 25-30 acting on the full state: build the fresh weighted
array from the histogram, then run every level of the reduction on it. -/
def runReduce (h : List ℕ) : ReduceState :=
  (List.range (numLevels h.length)).foldl
    (fun s k => levelState (cutoff h.length (k + 1)) s)
    { histogram := h, shared := weightedInit h }

/-- The concrete scenario of spec section 8: 2,073,600 samples, all in
bin 128, of a 255-bin histogram. -/
def scenarioHistogram : List ℕ :=
  List.replicate 128 0 ++ 2073600 :: List.replicate 126 0

lemma getD_eq_zero_of_len_le {w : List ℕ} {n : ℕ} (h : w.length ≤ n) :
    w.getD n 0 = 0 := by
  simp [List.getD_eq_getElem?_getD, List.getElem?_eq_none h]

lemma foldStep_getD (c j : ℕ) (w : List ℕ) (k : ℕ) :
    (foldStep c j w).getD k 0 =
      if k = j then w.getD j 0 + w.getD (j + c) 0 else w.getD k 0 := by
  unfold foldStep
  rcases eq_or_ne k j with rfl | hkj
  · rw [if_pos rfl]
    by_cases hj : k < w.length
    · simp [List.getD_eq_getElem?_getD, List.getElem?_set_self hj]
    · push_neg at hj
      rw [List.set_eq_of_length_le hj]
      rw [getD_eq_zero_of_len_le hj,
        getD_eq_zero_of_len_le (le_trans hj (Nat.le_add_right _ _))]
  · rw [if_neg hkj]
    simp [List.getD_eq_getElem?_getD, List.getElem?_set_ne (Ne.symm hkj)]

lemma length_foldLevelAux (c : ℕ) (w : List ℕ) (m : ℕ) :
    (foldLevelAux c w m).length = w.length := by
  induction m with
  | zero => rfl
  | succ n ih =>
    rw [foldLevelAux, List.range_succ, List.foldl_append, List.foldl_cons,
      List.foldl_nil]
    have hfold : (List.range n).foldl (fun acc j => foldStep c j acc) w =
        foldLevelAux c w n := rfl
    rw [hfold, foldStep, List.length_set, ih]

lemma foldLevelAux_getD (c : ℕ) (w : List ℕ) (m : ℕ) :
    ∀ k, (foldLevelAux c w m).getD k 0 =
      if k < m then w.getD k 0 + w.getD (k + c) 0 else w.getD k 0 := by
  induction m with
  | zero => intro k; simp [foldLevelAux]
  | succ n ih =>
    intro k
    rw [foldLevelAux, List.range_succ, List.foldl_append, List.foldl_cons,
      List.foldl_nil]
    have hfold : (List.range n).foldl (fun acc j => foldStep c j acc) w =
        foldLevelAux c w n := rfl
    rw [hfold, foldStep_getD]
    rcases eq_or_ne k n with rfl | hkn
    · rw [if_pos rfl, ih k, ih (k + c), if_neg (lt_irrefl k),
        if_neg (by omega : ¬ k + c < k), if_pos (by omega : k < k + 1)]
    · rw [if_neg hkn, ih k]
      by_cases hk : k < n
      · rw [if_pos hk, if_pos (by omega : k < n + 1)]
      · rw [if_neg hk, if_neg (by omega : ¬ k < n + 1)]

lemma prefixSum_foldLevel (c : ℕ) (w : List ℕ) (n : ℕ) (hn : n = c + c) :
    prefixSum (foldLevel c w) c = prefixSum w n := by
  subst hn
  rw [prefixSum, prefixSum, Finset.sum_range_add, ← Finset.sum_add_distrib]
  apply Finset.sum_congr rfl
  intro k hk
  rw [Finset.mem_range] at hk
  rw [foldLevel, foldLevelAux_getD c w c k, if_pos hk, Nat.add_comm k c]

lemma numLevels_eq_eight : numLevels 255 = 8 := by
  have h1 : Nat.clog 2 255 ≤ 8 := (Nat.le_pow_iff_clog_le one_lt_two).1 (by norm_num)
  have h2 : 7 < Nat.clog 2 255 := (Nat.pow_lt_iff_lt_clog one_lt_two).1 (by norm_num)
  rw [numLevels]
  omega

lemma reduceWeighted_eq_levels (h : List ℕ) (hlen : h.length = 255) :
    reduceWeighted h =
      foldLevel 1 (foldLevel 2 (foldLevel 4 (foldLevel 8 (foldLevel 16
        (foldLevel 32 (foldLevel 64 (foldLevel 128 (weightedInit h)))))))) := by
  rw [reduceWeighted, hlen, numLevels_eq_eight,
    show List.range 8 = [0, 1, 2, 3, 4, 5, 6, 7] from rfl]
  simp only [List.foldl_cons, List.foldl_nil]
  norm_num [cutoff]

lemma prefixSum_one (w : List ℕ) : prefixSum w 1 = w.getD 0 0 := by
  rw [prefixSum, Finset.sum_range_one]

lemma length_weightedInit (h : List ℕ) : (weightedInit h).length = h.length := by
  rw [weightedInit, List.length_mapIdx]

lemma prefixSum_weightedInit (h : List ℕ) (hlen : h.length = 255) :
    prefixSum (weightedInit h) 256 = linearWeightedSum h := by
  rw [prefixSum, Finset.sum_range_succ]
  have hlen' : (weightedInit h).length = 255 := by rw [length_weightedInit, hlen]
  rw [getD_eq_zero_of_len_le (by omega), Nat.add_zero, linearWeightedSum, hlen]
  apply Finset.sum_congr rfl
  intro i hi
  rw [Finset.mem_range] at hi
  rw [weightedInit, List.getD_eq_getElem?_getD, List.getElem?_mapIdx,
    List.getElem?_eq_getElem (by omega : i < h.length)]
  simp [List.getD_eq_getElem?_getD, List.getElem?_eq_getElem (by omega : i < h.length),
    Nat.mul_comm]

lemma weightedSum_eq_linearWeightedSum (h : List ℕ) (hlen : h.length = 255) :
    weightedSum h = linearWeightedSum h := by
  rw [weightedSum, reduceWeighted_eq_levels h hlen, ← prefixSum_one]
  rw [prefixSum_foldLevel 1 _ 2 (by norm_num)]
  rw [prefixSum_foldLevel 2 _ 4 (by norm_num)]
  rw [prefixSum_foldLevel 4 _ 8 (by norm_num)]
  rw [prefixSum_foldLevel 8 _ 16 (by norm_num)]
  rw [prefixSum_foldLevel 16 _ 32 (by norm_num)]
  rw [prefixSum_foldLevel 32 _ 64 (by norm_num)]
  rw [prefixSum_foldLevel 64 _ 128 (by norm_num)]
  rw [prefixSum_foldLevel 128 _ 256 (by norm_num)]
  exact prefixSum_weightedInit h hlen

lemma linearWeightedSum_set_add (h : List ℕ) (hlen : h.length = 255) (k d : ℕ)
    (hk : k < 255) :
    linearWeightedSum (h.set k (h.getD k 0 + d)) = linearWeightedSum h + k * d := by
  rw [linearWeightedSum, linearWeightedSum, List.length_set, hlen]
  have key : ∀ i ∈ Finset.range 255,
      i * (h.set k (h.getD k 0 + d)).getD i 0 =
        i * h.getD i 0 + (if k = i then k * d else 0) := by
    intro i hi
    rcases eq_or_ne k i with rfl | hki
    · rw [if_pos rfl]
      have hset : (h.set k (h.getD k 0 + d)).getD k 0 = h.getD k 0 + d := by
        rw [List.getD_eq_getElem?_getD, List.getElem?_set_self (by omega),
          Option.getD_some]
      rw [hset]
      ring
    · rw [if_neg hki, List.getD_eq_getElem?_getD, List.getElem?_set_ne hki,
        ← List.getD_eq_getElem?_getD, Nat.add_zero]
  rw [Finset.sum_congr rfl key, Finset.sum_add_distrib, Finset.sum_ite_eq,
    if_pos (Finset.mem_range.mpr hk)]

lemma linearWeightedSum_eq_zero (h : List ℕ) (hlen : h.length = 255)
    (hz : ∀ i < 255, 1 ≤ i → h.getD i 0 = 0) : linearWeightedSum h = 0 := by
  rw [linearWeightedSum, hlen]
  apply Finset.sum_eq_zero
  intro i hi
  rw [Finset.mem_range] at hi
  rcases Nat.eq_zero_or_pos i with rfl | hpos
  · rw [Nat.zero_mul]
  · rw [hz i hi hpos, Nat.mul_zero]

lemma foldLevelCheckedAux_succ (c : ℕ) (w : List ℕ) (n : ℕ) :
    foldLevelCheckedAux c w (n + 1) =
      foldLevelCheckedAux c w n >>= fun acc => foldStepChecked c n acc := by
  rw [foldLevelCheckedAux, foldLevelCheckedAux, List.range_succ, List.foldlM_append]
  simp

lemma foldLevelCheckedAux_ok (c : ℕ) (w : List ℕ) (m : ℕ)
    (hm : ∀ j, j < m → j + c < w.length) :
    ∃ w', foldLevelCheckedAux c w m = some w' ∧ w'.length = w.length := by
  induction m with
  | zero => exact ⟨w, rfl, rfl⟩
  | succ n ih =>
    obtain ⟨w', hw', hlen'⟩ := ih (fun j hj => hm j (by omega))
    rw [foldLevelCheckedAux_succ, hw']
    have hn : n < w'.length := by
      have := hm n (by omega)
      omega
    have hc : n + c < w'.length := by
      have := hm n (by omega)
      omega
    have hred : (some w' >>= fun acc => foldStepChecked c n acc) =
        foldStepChecked c n w' := rfl
    rw [hred, foldStepChecked, List.getElem?_eq_getElem hn,
      List.getElem?_eq_getElem hc]
    exact ⟨_, rfl, by rw [List.length_set, hlen']⟩

lemma foldLevelChecked_fail (w : List ℕ) (hw : w.length = 255) :
    foldLevelChecked 128 w = none := by
  rw [foldLevelChecked]
  show foldLevelCheckedAux 128 w (127 + 1) = none
  obtain ⟨w', hw', hlen'⟩ := foldLevelCheckedAux_ok 128 w 127 (fun j hj => by omega)
  rw [foldLevelCheckedAux_succ, hw']
  have hred : (some w' >>= fun acc => foldStepChecked 128 127 acc) =
      foldStepChecked 128 127 w' := rfl
  rw [hred, foldStepChecked,
    List.getElem?_eq_none (by omega : w'.length ≤ 127 + 128)]
  cases w'[(127 : ℕ)]? <;> rfl

lemma reduceWeightedChecked_none (h : List ℕ) (hlen : h.length = 255) :
    reduceWeightedChecked h = none := by
  rw [reduceWeightedChecked, hlen, numLevels_eq_eight,
    show List.range 8 = [0, 1, 2, 3, 4, 5, 6, 7] from rfl]
  simp only [List.foldlM_cons]
  have hfail : foldLevelChecked (cutoff 255 (0 + 1)) (weightedInit h) = none := by
    rw [show cutoff 255 (0 + 1) = 128 from by norm_num [cutoff]]
    exact foldLevelChecked_fail _ (by rw [length_weightedInit, hlen])
  rw [hfail]
  rfl

lemma stepState_eq (c j : ℕ) (a w : List ℕ) :
    stepState c j ⟨a, w⟩ = ⟨a, foldStep c j w⟩ := rfl

lemma levelState_eq (c : ℕ) (a w : List ℕ) :
    levelState c ⟨a, w⟩ = ⟨a, foldLevel c w⟩ := by
  rw [levelState, foldLevel, foldLevelAux]
  generalize List.range c = js
  induction js generalizing w with
  | nil => rfl
  | cons j js ih =>
    rw [List.foldl_cons, List.foldl_cons, stepState_eq]
    exact ih (foldStep c j w)

lemma runReduce_eq (h : List ℕ) : runReduce h = ⟨h, reduceWeighted h⟩ := by
  rw [runReduce, reduceWeighted]
  generalize weightedInit h = w0
  generalize List.range (numLevels h.length) = ks
  induction ks generalizing w0 with
  | nil => rfl
  | cons k ks ih =>
    rw [List.foldl_cons, List.foldl_cons, levelState_eq]
    exact ih (foldLevel (cutoff h.length (k + 1)) w0)

lemma log_two_le_seventeen : (3.5 : ℝ) * Real.log 2 ≤ Real.log 17 := by
  have hlog : Real.log 128 ≤ Real.log 289 :=
    (Real.log_le_log_iff (by norm_num) (by norm_num)).2 (by norm_num)
  have h1 : Real.log 128 = 7 * Real.log 2 := by
    rw [show (128 : ℝ) = 2 ^ (7 : ℕ) from by norm_num, Real.log_pow]
    norm_num
  have h2 : Real.log 289 = 2 * Real.log 17 := by
    rw [show (289 : ℝ) = 17 ^ (2 : ℕ) from by norm_num, Real.log_pow]
    norm_num
  linarith

lemma logb_two_seventeen : (3.5 : ℝ) ≤ Real.logb 2 17 := by
  rw [Real.logb, le_div_iff₀ (Real.log_pos (by norm_num))]
  exact log_two_le_seventeen

lemma logb_two_threshold : (-7.68 : ℝ) ≤ Real.logb 2 0.005 := by
  rw [Real.logb, le_div_iff₀ (Real.log_pos (by norm_num))]
  have h5 : Real.log 0.005 = -Real.log 200 := by
    rw [show (0.005 : ℝ) = (200 : ℝ)⁻¹ from by norm_num, Real.log_inv]
  have hbig : Real.log (200 ^ (25 : ℕ)) ≤ Real.log (2 ^ (192 : ℕ)) :=
    (Real.log_le_log_iff (by positivity) (by positivity)).2 (by norm_num)
  rw [Real.log_pow, Real.log_pow] at hbig
  push_cast at hbig
  rw [h5]
  linarith

lemma logLumOf_nonneg (r g b : ℝ) : 0 ≤ logLumOf r g b := by
  rw [logLumOf]
  exact le_min (le_trans (by norm_num) (le_max_right _ _)) (by norm_num)

lemma logLumOf_le_one (r g b : ℝ) : logLumOf r g b ≤ 1 := by
  rw [logLumOf]
  exact (min_le_right _ _).trans (by norm_num)

lemma logLumOf_ge_threshold (r g b : ℝ) (hl : 0.005 ≤ lum r g b) :
    (7 / 254 : ℝ) ≤ logLumOf r g b := by
  rw [logLumOf]
  refine le_min ?_ (by norm_num)
  have hmono : Real.logb 2 0.005 ≤ Real.logb 2 (lum r g b) :=
    Real.logb_le_logb_of_le (by norm_num) (by norm_num) hl
  have hlow := logb_two_threshold
  have hraw : (7 / 254 : ℝ) ≤
      (Real.logb 2 (lum r g b) - minLogLum) * inverseLogLumRange := by
    rw [minLogLum, inverseLogLumRange, maxLogLum, minLogLum]
    norm_num
    linarith
  exact hraw.trans (le_max_left _ _)

lemma pyInt_eq_floor {x : ℝ} (hx : 0 ≤ x) : pyInt x = ⌊x⌋ := by
  rw [pyInt, if_pos hx]

/-- C1: for every histogram of length B = 255 with non-negative integer
entries, the logarithmic-depth reduction (levels 1..ceil(log2 B), cutoff
ceil(B / 2^i), fold clamped so a partner index at or past B contributes
zero) leaves entry 0 of the weighted array equal to the single-pass linear
weighted sum, the sum over i of `i * histogram[i]`. -/
theorem avg_C1 (h : List ℕ) (hlen : h.length = B) :
    weightedSum h = linearWeightedSum h :=
  weightedSum_eq_linearWeightedSum h (hlen.trans rfl)

/-- Witness for C1: the all-ones 255-bin histogram satisfies the length
hypothesis, and the reduced weighted sum equals the linear weighted sum. -/
theorem avg_C1_witness :
    (List.replicate 255 1).length = B ∧
      weightedSum (List.replicate 255 1) = linearWeightedSum (List.replicate 255 1) :=
  ⟨by decide, avg_C1 (List.replicate 255 1) (by decide)⟩

lemma lum_twenty : lum 20 20 20 = 17 := by
  rw [lum]
  norm_num

lemma lum_twenty_not_lt : ¬ lum 20 20 20 < 0.005 := by
  rw [lum_twenty]
  norm_num

lemma logLumOf_twenty : logLumOf 20 20 20 = 1 := by
  have hraw : (1 : ℝ) ≤
      (Real.logb 2 (lum 20 20 20) - minLogLum) * inverseLogLumRange := by
    rw [lum_twenty, minLogLum, inverseLogLumRange, maxLogLum, minLogLum]
    have := logb_two_seventeen
    norm_num
    linarith
  rw [logLumOf]
  have h1 : (1.0 : ℝ) ≤
      max ((Real.logb 2 (lum 20 20 20) - minLogLum) * inverseLogLumRange) 0.0 :=
    le_trans (by norm_num) (hraw.trans (le_max_left _ _))
  rw [min_eq_right h1]
  norm_num

/-- C2, counterexample to the claim as stated: the quantizer does return a
bin outside [0, B-1] = [0, 254]; at the concrete bright input
(r, g, b) = (20, 20, 20) the luminance is 17, the clamped logLum is 1.0,
and `colorToBin` returns `int(1.0 * 254.0 + 1.0) = 255`. -/
theorem avg_C2_counterexample :
    colorToBin 20 20 20 = 255 ∧ ¬ colorToBin 20 20 20 ≤ 254 := by
  have hbin : colorToBin 20 20 20 = 255 := by
    rw [colorToBin, if_neg lum_twenty_not_lt, logLumOf_twenty,
      pyInt_eq_floor (by norm_num)]
    norm_num
  exact ⟨hbin, by rw [hbin]; norm_num⟩

/-- C2, amended: for every triple of finite real inputs the quantizer
returns an integer bin index in [0, B] = [0, 255]; and whenever the
luminance is at or above the black threshold and the clamped logLum equals
1.0, it returns exactly 255 (= B, one above B-1). -/
theorem avg_C2 (r g b : ℝ) :
    (0 ≤ colorToBin r g b ∧ colorToBin r g b ≤ 255) ∧
      (¬ lum r g b < 0.005 → logLumOf r g b = 1 → colorToBin r g b = 255) := by
  constructor
  · rw [colorToBin]
    split_ifs with hguard
    · norm_num
    · have hmul : (0 : ℝ) ≤ logLumOf r g b * 254.0 :=
        mul_nonneg (logLumOf_nonneg r g b) (by norm_num)
      have h0 : (0 : ℝ) ≤ logLumOf r g b * 254.0 + 1.0 := by linarith
      rw [pyInt_eq_floor h0]
      refine ⟨Int.floor_nonneg.2 h0, ?_⟩
      have hle : logLumOf r g b * 254.0 + 1.0 ≤ 255 := by
        have h1 := logLumOf_le_one r g b
        nlinarith
      calc ⌊logLumOf r g b * 254.0 + 1.0⌋ ≤ ⌊(255 : ℝ)⌋ := Int.floor_le_floor hle
        _ = 255 := by norm_num
  · intro hguard hone
    rw [colorToBin, if_neg hguard, hone, pyInt_eq_floor (by norm_num)]
    norm_num

/-- Witness for C2's amended theorem at (r, g, b) = (20, 20, 20): the input
is above the black threshold with clamped logLum exactly 1.0, the returned
bin lies in [0, 255], and it is exactly 255 there. -/
theorem avg_C2_witness :
    (¬ lum 20 20 20 < 0.005 ∧ logLumOf 20 20 20 = 1) ∧
      (0 ≤ colorToBin 20 20 20 ∧ colorToBin 20 20 20 ≤ 255) ∧
      colorToBin 20 20 20 = 255 :=
  ⟨⟨lum_twenty_not_lt, logLumOf_twenty⟩, (avg_C2 20 20 20).1,
    (avg_C2 20 20 20).2 lum_twenty_not_lt logLumOf_twenty⟩

/-- C3: the code evaluated at the failing input. The claim (and spec) say
`quantize` never fails and returns bin 0 for sub-threshold luminance without
evaluating log2 of a non-positive value, but line 49 of the source prints
`math.log2(lum) - minLogLum` before the guard, so at (r, g, b) = (0, 0, 0)
(luminance exactly 0) the script raises ValueError instead of returning 0. -/
theorem avg_C3 : colorToBinSrc 0 0 0 = none := by
  rw [colorToBinSrc, if_pos]
  rw [lum]
  norm_num

/-- C4 (on the spec-modelled `reduce` entry point): for every well-formed
histogram of length B, `reduce` fails with the EmptyHistogramError exactly
when the bin counts sum to zero; a zero-sum histogram yields a typed error,
never a numeric statistic. -/
theorem avg_C4 (h : List ℕ) (hlen : h.length = B) :
    reduceE h = .error .emptyHistogramError ↔ h.sum = 0 := by
  rw [reduceE, if_neg (fun hne => hne hlen)]
  by_cases hs : h.sum = 0
  · rw [if_pos hs]
    simp [hs]
  · rw [if_neg hs]
    simp [hs]

/-- Witness for C4: the all-zero 255-bin histogram satisfies the length
hypothesis, and on it `reduce` errs with EmptyHistogramError iff its sum
is zero. -/
theorem avg_C4_witness :
    (List.replicate 255 0).length = B ∧
      (reduceE (List.replicate 255 0) = .error .emptyHistogramError ↔
        (List.replicate 255 0).sum = 0) :=
  ⟨by decide, avg_C4 (List.replicate 255 0) (by decide)⟩

/-- C5: the concrete scenario of spec section 8 (B = 255, minLogLum = -8.0,
maxLogLum = 3.5, normalization constant 1920*1080, 2,073,600 samples all in
bin 128): `reduce` returns pixelCount 2073600, weighted sum 265420800,
normalized log luminance exactly 127.0, and average linear luminance
exactly `2 ** ((127/254) * 11.5 + (-8)) = 2 ** (-2.25)`. -/
theorem avg_C5 :
    reduceE scenarioHistogram =
      .ok { pixelCount := 2073600, weightedSum := 265420800,
            normalizedLogLuminance := 127,
            averageLinearLuminance := (2 : ℝ) ^ (-2.25 : ℝ) } := by
  have hlen : scenarioHistogram.length = 255 := by decide
  have hsum : scenarioHistogram.sum = 2073600 := by decide
  have hws : weightedSum scenarioHistogram = 265420800 := by
    rw [weightedSum_eq_linearWeightedSum _ hlen]
    decide
  have hpix : pixels scenarioHistogram = 2073600 := hsum
  have hwla : wla 265420800 = 127 := by
    rw [wla, max_eq_left (by norm_num : (1.0 : ℝ) ≤ 1920 * 1080)]
    norm_num
  have hwal : wal 127 = (2 : ℝ) ^ (-2.25 : ℝ) := by
    rw [wal, llr, maxLogLum, minLogLum]
    congr 1
    norm_num
  rw [reduceE, if_neg (fun hne => hne (hlen.trans rfl)),
    if_neg (by rw [hsum]; norm_num), hpix, hws, hwla, hwal]

/-- C6: for every 255-bin histogram whose only populated bin is bin 0, the
reduced weighted sum is 0 and the normalized log luminance is exactly -1.0. -/
theorem avg_C6 (h : List ℕ) (hlen : h.length = B)
    (hz : ∀ i < 255, 1 ≤ i → h.getD i 0 = 0) (hpos : 0 < h.getD 0 0) :
    weightedSum h = 0 ∧ wla (weightedSum h) = -1 := by
  have h0 : weightedSum h = 0 := by
    rw [weightedSum_eq_linearWeightedSum h (hlen.trans rfl)]
    exact linearWeightedSum_eq_zero h (hlen.trans rfl) hz
  refine ⟨h0, ?_⟩
  rw [h0, wla, max_eq_left (by norm_num : (1.0 : ℝ) ≤ 1920 * 1080)]
  norm_num

/-- Witness for C6: 5 samples in bin 0 of a 255-bin histogram. -/
theorem avg_C6_witness :
    ((5 :: List.replicate 254 0).length = B ∧
      (∀ i < 255, 1 ≤ i → (5 :: List.replicate 254 0).getD i 0 = 0) ∧
      0 < (5 :: List.replicate 254 0).getD 0 0) ∧
    weightedSum (5 :: List.replicate 254 0) = 0 ∧
      wla (weightedSum (5 :: List.replicate 254 0)) = -1 :=
  ⟨⟨by decide, by decide, by decide⟩,
    avg_C6 (5 :: List.replicate 254 0) (by decide) (by decide) (by decide)⟩

/-- C7: monotonicity of the reduced weighted sum. Increasing a single bin
`k > 0` of a 255-bin histogram by a positive count never decreases the
reduced weighted sum. -/
theorem avg_C7 (h : List ℕ) (k d : ℕ) (hlen : h.length = B) (hk0 : 0 < k)
    (hk : k < B) (hd : 0 < d) :
    weightedSum h ≤ weightedSum (h.set k (h.getD k 0 + d)) := by
  have hlen' : (h.set k (h.getD k 0 + d)).length = 255 := by
    rw [List.length_set]
    exact hlen.trans rfl
  rw [weightedSum_eq_linearWeightedSum h (hlen.trans rfl),
    weightedSum_eq_linearWeightedSum _ hlen',
    linearWeightedSum_set_add h (hlen.trans rfl) k d hk]
  exact Nat.le_add_right _ _

/-- Witness for C7: add 2 samples to bin 3 of the all-ones histogram. -/
theorem avg_C7_witness :
    ((List.replicate 255 1).length = B ∧ 0 < 3 ∧ 3 < B ∧ 0 < 2) ∧
      weightedSum (List.replicate 255 1) ≤
        weightedSum ((List.replicate 255 1).set 3
          ((List.replicate 255 1).getD 3 0 + 2)) :=
  ⟨⟨by decide, by decide, by decide, by decide⟩,
    avg_C7 (List.replicate 255 1) 3 2 (by decide) (by decide) (by decide)
      (by decide)⟩

/-- C8, frame condition: the reduction run on the full state (histogram and
private weighted array) leaves the caller's histogram untouched — the folds
write only to the freshly built weighted array, which ends up exactly as the
clamped reduction computes it. -/
theorem avg_C8 (h : List ℕ) :
    (runReduce h).histogram = h ∧ (runReduce h).shared = reduceWeighted h := by
  rw [runReduce_eq]
  exact ⟨rfl, rfl⟩

/-- C9: the reduction loop exactly as written in the source, with
bounds-checked indexing, fails (IndexError) on every histogram of length
255: at the first level cutoff = 128 and iteration j = 127 reads index
255, one past the end of the weighted array. -/
theorem avg_C9 (h : List ℕ) (hlen : h.length = B) :
    reduceWeightedChecked h = none :=
  reduceWeightedChecked_none h (hlen.trans rfl)

/-- Witness for C9: the constant-2 histogram of length 255. -/
theorem avg_C9_witness :
    (List.replicate 255 2).length = B ∧
      reduceWeightedChecked (List.replicate 255 2) = none :=
  ⟨by decide, avg_C9 (List.replicate 255 2) (by decide)⟩

/-- C10: the quantizer never returns a bin in {1, ..., 7}: it returns bin 0
below the black threshold, and otherwise (lum at least 0.005, which exceeds
2 ^ minLogLum = 2 ^ (-8)) the clamped logLum is at least about 0.031, so
the returned bin is at least 8. -/
theorem avg_C10 (r g b : ℝ) : colorToBin r g b = 0 ∨ 8 ≤ colorToBin r g b := by
  rw [colorToBin]
  split_ifs with hguard
  · exact Or.inl rfl
  · right
    push_neg at hguard
    have hll := logLumOf_ge_threshold r g b hguard
    have harg : (8 : ℝ) ≤ logLumOf r g b * 254.0 + 1.0 := by linarith
    rw [pyInt_eq_floor (by linarith)]
    exact Int.le_floor.2 (by exact_mod_cast harg)
